import Mathlib

/-!
Verification of the AI document assistant repository.

The development shallowly embeds the parts of the code that the properties
below are about:

* the client-side reconciliation of the chat event stream
  (frontend/app/page.tsx, handleSubmit), modelled as pure functions over an
  explicit client state;
* the submit / abort / finally skeleton of handleSubmit, modelled as a step
  relation over an abstract client session state;
* the upload validation of the ingest route (frontend/app/api/ingest/route.ts);
* the conversation deletion logic of the two conversation-context variants;
* the backend document reducer, modelled from the spec (its Python source,
  backend/src/shared/state.py, is not among the repository files given here).
-/

namespace AIDoc

/-- A retrieved document as the client sees it (types/graphTypes PDFDocument);
only its identity as a value matters here. -/
structure PDFDocument where
  id : String
  content : String
  deriving DecidableEq, Repr

/-- Display message role, page.tsx line 44: role is user or assistant. -/
inductive Role where
  | user
  | assistant
  deriving DecidableEq, Repr

/-- One entry of the display message list kept by the client
(page.tsx lines 42-48): role, content, and an optional sources list.
`sources = none` models the field being undefined. -/
structure DisplayMessage where
  role : Role
  content : String
  sources : Option (List PDFDocument)
  deriving DecidableEq, Repr

/-- The type tag of a message delivered by the backend
(page.tsx BackendMessage, lines 20-24): human, ai, or anything else
(a frame is untrusted JSON, so a value without a recognised tag is possible). -/
inductive MsgType where
  | human
  | ai
  | otherTag
  deriving DecidableEq, Repr

/-- The content field of a backend message as JSON delivers it: absent
(null or undefined), a string, or some non-string value. -/
inductive MsgContent where
  | missing
  | str (s : String)
  | otherVal
  deriving DecidableEq, Repr

/-- A message as delivered inside an event payload. -/
structure BackendMessage where
  type : MsgType
  content : MsgContent
  deriving DecidableEq, Repr

/-- The payload of an updates event as the client reads it
(page.tsx NodeUpdate, lines 31-36): for each stage key the client looks at,
`some` holds the array found there and `none` models the key being absent or
not holding an array. -/
structure NodeUpdate where
  retrieveDocuments : Option (List PDFDocument)
  directAnswer : Option (List BackendMessage)
  generateResponse : Option (List BackendMessage)
  deriving DecidableEq, Repr

/-- A parsed SSE event (page.tsx SSEEvent): the event name and its data.
`partialMsgs none` models a messages/partial event whose data is not an
array; `updatesEvt none` models an updates event with falsy data; `otherEvt`
models an event with an unrecognised name. -/
inductive SSEEvent where
  | partialMsgs (data : Option (List BackendMessage))
  | updatesEvt (u : Option NodeUpdate)
  | errorEvt
  | otherEvt
  deriving DecidableEq, Repr

/-- The JavaScript string method trim, as used by the code: the characters
of the string with leading and trailing whitespace removed. Stated over the
character list so that the kernel can evaluate it on concrete inputs. -/
def jsTrim (s : String) : String :=
  ⟨((s.data.dropWhile Char.isWhitespace).reverse.dropWhile Char.isWhitespace).reverse⟩

/-- The JavaScript string method startsWith, as used by the code. -/
def jsStartsWith (s p : String) : Bool :=
  p.data.isPrefixOf s.data

/-- The client state handleSubmit reconciles events into: the display
message list (the messages React state) and the last-retrieved buffer
(lastRetrievedDocsRef, page.tsx line 57). -/
structure ClientState where
  messages : List DisplayMessage
  lastRetrievedDocs : List PDFDocument
  deriving DecidableEq, Repr

/-- Overwrite of the trailing entry, shared by every handler in page.tsx:
replace the last element of the list by `f` of it, provided the list is
nonempty and its last element has the assistant role (lines 186-196,
226-237, 253-266, 285-292); otherwise leave the list as it is. -/
def setTrailing (msgs : List DisplayMessage) (f : DisplayMessage → DisplayMessage) :
    List DisplayMessage :=
  match msgs.getLast? with
  | none => msgs
  | some m => if m.role = Role.assistant then msgs.dropLast ++ [f m] else msgs

/-- The coercion applied to the last partial message content,
page.tsx line 178: content null or undefined becomes the empty string;
a non-string value fails the typeof check at line 181. -/
def contentString : MsgContent → Option String
  | MsgContent.missing => some ""
  | MsgContent.str s => some s
  | MsgContent.otherVal => none

/-- The condition of the messages/partial handler, page.tsx lines 175-183:
the content the trailing entry is overwritten with, when the last element of
the data array is an ai message whose coerced content is a string that does
not start with a left brace; `none` when no overwrite happens. -/
def partialUpdate (data : Option (List BackendMessage)) : Option String :=
  match data with
  | none => none
  | some msgs =>
    match msgs.getLast? with
    | none => none
    | some lastObj =>
      if lastObj.type = MsgType.ai then
        match contentString lastObj.content with
        | none => none
        | some s => if jsStartsWith s "\x7b" then none else some s
      else none

/-- The messages/partial handler, page.tsx lines 174-202: on a qualifying
payload, overwrite the trailing assistant entry with the partial content and
attach the last-retrieved buffer as its sources. -/
def onPartialMsgs (st : ClientState) (data : Option (List BackendMessage)) : ClientState :=
  match partialUpdate data with
  | none => st
  | some s =>
    { st with
      messages := setTrailing st.messages
        (fun m => { m with content := s, sources := some st.lastRetrievedDocs }) }

/-- The content extracted from a directAnswer or generateResponse update,
page.tsx lines 219-223 and 247-251: the first ai message of the array, kept
only when its content is a string (no null coercion here). -/
def answerUpdate (msgs? : Option (List BackendMessage)) : Option String :=
  match msgs? with
  | none => none
  | some msgs =>
    match msgs.find? (fun m => m.type == MsgType.ai) with
    | none => none
    | some aiMessage =>
      match aiMessage.content with
      | MsgContent.str s => some s
      | _ => none

/-- The overwrite a directAnswer or generateResponse update performs,
page.tsx lines 224-238 and 252-267. -/
def applyAnswer (st : ClientState) (msgs? : Option (List BackendMessage)) : ClientState :=
  match answerUpdate msgs? with
  | none => st
  | some s =>
    { st with
      messages := setTrailing st.messages
        (fun m => { m with content := s, sources := some st.lastRetrievedDocs }) }

/-- The updates handler, page.tsx lines 203-268: the retrieveDocuments key
replaces the last-retrieved buffer, then the directAnswer and
generateResponse keys are handled in that order. -/
def onUpdates (st : ClientState) (u : Option NodeUpdate) : ClientState :=
  match u with
  | none => st
  | some upd =>
    let st1 := match upd.retrieveDocuments with
      | some docs => { st with lastRetrievedDocs := docs }
      | none => st
    let st2 := applyAnswer st1 upd.directAnswer
    applyAnswer st2 upd.generateResponse

/-- One parsed event applied to the client state, page.tsx lines 172-271.
An error event only logs (line 270) and an unknown event name matches no
branch, so both leave the state unchanged. -/
def processEvent (st : ClientState) (e : SSEEvent) : ClientState :=
  match e with
  | SSEEvent.partialMsgs data => onPartialMsgs st data
  | SSEEvent.updatesEvt u => onUpdates st u
  | SSEEvent.errorEvt => st
  | SSEEvent.otherEvt => st

/-- A whole event sequence applied in order. -/
def processEvents (st : ClientState) (es : List SSEEvent) : ClientState :=
  es.foldl processEvent st

/-- The fixed failure string of the catch handler, page.tsx line 289. -/
def errorText : String := "Sorry, there was an error processing your message."

/-- The catch handler of handleSubmit, page.tsx lines 283-293: when the
request or the stream throws, overwrite the trailing assistant entry content
with the fixed failure string; the entry is copied with only its content
replaced, so its sources field is kept as it is. -/
def handleStreamFailure (st : ClientState) : ClientState :=
  { st with messages := setTrailing st.messages (fun m => { m with content := errorText }) }

/-- The synchronous start of handleSubmit, page.tsx lines 103-123: `none`
when the guard at line 105 returns (input blank after trimming, no current
thread, or a turn already loading); otherwise the display list is extended
with the user entry and the empty in-flight assistant entry, and the
last-retrieved buffer is reset. -/
def handleSubmitInit (st : ClientState) (input : String) (hasThread : Bool)
    (isLoading : Bool) : Option ClientState :=
  if jsTrim input = "" ∨ hasThread = false ∨ isLoading = true then none
  else
    some
      { messages :=
          st.messages ++
            [{ role := Role.user, content := jsTrim input, sources := none },
             { role := Role.assistant, content := "", sources := none }],
        lastRetrievedDocs := [] }

/-- One line of the SSE stream as the reading loop sees it, page.tsx lines
159-170: the raw text of the line, together with the outcome of JSON.parse
on its payload (`none` when parsing throws; parsing is an external library
call, so only its outcome is modelled). -/
structure RawFrame where
  text : String
  parsed : Option SSEEvent

/-- Handling of one line, page.tsx lines 159-170: a blank line or a line
without the data prefix is skipped, a line whose payload does not parse is
skipped, and otherwise the parsed event is processed. -/
def processFrame (st : ClientState) (fr : RawFrame) : ClientState :=
  if jsTrim fr.text = "" then st
  else if jsStartsWith (jsTrim fr.text) "data: " = false then st
  else
    match fr.parsed with
    | none => st
    | some e => processEvent st e

/-- The for-loop over the lines of the stream, page.tsx line 159. -/
def processFrames (st : ClientState) (frs : List RawFrame) : ClientState :=
  frs.foldl processFrame st

/-- Restatement of the amended reconciliation rule for messages/partial
events, written from the amended claim's words for comparison with the
handler embedded above: the content that replaces the trailing entry when
the last element of the array is an ai message whose content is a string not
starting with a left brace, where an absent content counts as the empty
string; the string may be empty. -/
def specPartialContent (msgs : List BackendMessage) : Option String :=
  match msgs.getLast? with
  | none => none
  | some lastMsg =>
    if lastMsg.type = MsgType.ai then
      match lastMsg.content with
      | MsgContent.str s => if jsStartsWith s "\x7b" then none else some s
      | MsgContent.missing => some ""
      | MsgContent.otherVal => none
    else none

/-- Abstract state of the chat session around handleSubmit, page.tsx lines
103-298: the isLoading React state, the abort controller reference (the id
of the controller it holds), a fresh-controller counter, the ids of the
fetch requests that have started and are neither settled nor aborted, and
the ids of aborted requests whose finally block has not yet run. Each
transition below is one synchronous section of the handler, which the
single-threaded event loop runs without interleaving; reads of isLoading see
the flushed state. -/
structure ChatClient where
  isLoading : Bool
  controllerRef : Option Nat
  nextC : Nat
  inFlight : List Nat
  abortedPending : List Nat
  deriving DecidableEq, Repr

/-- The session before any submission. -/
def initChat : ChatClient :=
  { isLoading := false, controllerRef := none, nextC := 0,
    inFlight := [], abortedPending := [] }

/-- The synchronous prefix of handleSubmit, page.tsx lines 105-136: the
guard returns unchanged when a turn is loading; otherwise the prior
controller, if the reference holds one, is aborted (its request leaves the
in-flight set and, if it was still in flight, its finally block becomes
pending), a fresh controller is stored, and the new fetch starts. -/
def submitStep (s : ChatClient) : ChatClient :=
  if s.isLoading then s
  else
    { isLoading := true,
      controllerRef := some s.nextC,
      nextC := s.nextC + 1,
      inFlight :=
        (match s.controllerRef with
         | some c => s.inFlight.filter (fun x => x != c)
         | none => s.inFlight) ++ [s.nextC],
      abortedPending :=
        match s.controllerRef with
        | some c =>
          if c ∈ s.inFlight then s.abortedPending ++ [c] else s.abortedPending
        | none => s.abortedPending }

/-- The finally block of the turn whose fetch used controller `c`, page.tsx
lines 294-297: once that fetch settles (normally, or by rejection after an
abort), isLoading is cleared and the controller reference nulled. A `c` with
no outstanding turn changes nothing. -/
def finallyStep (s : ChatClient) (c : Nat) : ChatClient :=
  if c ∈ s.inFlight then
    { s with
      isLoading := false
      controllerRef := none
      inFlight := s.inFlight.filter (fun x => x != c) }
  else if c ∈ s.abortedPending then
    { s with
      isLoading := false
      controllerRef := none
      abortedPending := s.abortedPending.filter (fun x => x != c) }
  else s

/-- The session states reachable from the initial one by submissions and
turn completions. -/
inductive ChatReachable : ChatClient → Prop where
  | init : ChatReachable initChat
  | submit {s : ChatClient} : ChatReachable s → ChatReachable (submitStep s)
  | settle {s : ChatClient} (c : Nat) : ChatReachable s → ChatReachable (finallyStep s c)

/-- Invariant of the session: at most one request in flight, none once
isLoading is cleared (with the controller reference nulled), and no aborted
turn awaiting its finally block. -/
def ChatInv (s : ChatClient) : Prop :=
  s.inFlight.length ≤ 1 ∧
    (s.isLoading = false → s.inFlight = [] ∧ s.controllerRef = none) ∧
    s.abortedPending = []

/-- A file of the upload form as the ingest route reads it
(ingest/route.ts lines 42-47): name, MIME type and size in bytes. -/
structure UploadFile where
  name : String
  type : String
  size : Nat
  deriving DecidableEq, Repr

/-- ingest/route.ts line 21. -/
def MAX_FILE_SIZE : Nat := 10 * 1024 * 1024

/-- ingest/route.ts line 22. -/
def ALLOWED_FILE_TYPES : List String := ["application/pdf"]

/-- Outcome of the validation phase of the ingest POST handler: an immediate
400 response with an error message, or the files going on to be forwarded to
the backend one by one. -/
inductive IngestDecision where
  | reject400 (error : String)
  | forward (files : List UploadFile)
  deriving DecidableEq, Repr

/-- The validation phase of the ingest POST handler, ingest/route.ts lines
29-76, in source order: missing or blank threadId, no files, more than five
files, then any file of a disallowed type or over the size limit; only when
every check passes does the handler reach the forwarding loop at line 83. -/
def ingestValidate (threadId : Option String) (files : List UploadFile) : IngestDecision :=
  match threadId with
  | none => IngestDecision.reject400 "Thread ID is required"
  | some t =>
    if t = "" ∨ jsTrim t = "" then IngestDecision.reject400 "Thread ID is required"
    else if files.length = 0 then IngestDecision.reject400 "No files provided"
    else if files.length > 5 then
      IngestDecision.reject400 "Too many files. Maximum 5 files allowed."
    else if 0 < (files.filter fun f =>
        !(ALLOWED_FILE_TYPES.contains f.type) || decide (f.size > MAX_FILE_SIZE)).length then
      IngestDecision.reject400 "Only PDF files are allowed and file size must be less than 10MB"
    else IngestDecision.forward files

/-- The claim's preconditions for forwarding, written from its words: a
threadId present and nonblank after trimming, between one and five files,
and every file a PDF of at most 10485760 bytes. -/
def ingestPreconds (threadId : Option String) (files : List UploadFile) : Prop :=
  (∃ t, threadId = some t ∧ jsTrim t ≠ "") ∧ files ≠ [] ∧ files.length ≤ 5 ∧
    ∀ f ∈ files, f.type = "application/pdf" ∧ f.size ≤ 10485760

/-- A conversation as the sidebar contexts hold it; only the thread id and
title matter here. -/
structure Conversation where
  threadId : String
  title : Option String
  deriving DecidableEq, Repr

/-- deleteConversation of the conversation context in part_004 (lines
181-231), success path of the DELETE request: the thread leaves the list;
when it was current, the first remaining conversation becomes current, or a
freshly created one (prepended to the list) when none remain, `createResult`
being the outcome of the backend create call; when that call fails the
current id is set to null and the function still reports success. Returns
the updated conversation list and current thread id. -/
def deleteConversation4 (convs : List Conversation) (current : Option String)
    (tid : String) (createResult : Option Conversation) :
    List Conversation × Option String :=
  let convs' := convs.filter (fun c => c.threadId != tid)
  if current = some tid then
    match convs.filter (fun c => c.threadId != tid), createResult with
    | r0 :: _, _ => (convs', some r0.threadId)
    | [], some c => (c :: convs', some c.threadId)
    | [], none => (convs', none)
  else (convs', current)

/-- deleteConversation of the conversation context in part_005 (lines
168-229), success path of the DELETE request: the thread leaves the list and
the current id is nulled when it pointed at it; when no conversation
remains, createConversation runs — on failure it throws and the whole
deleteConversation rethrows (`none`); otherwise, when the deleted thread was
current, the first remaining conversation becomes current. -/
def deleteConversation5 (convs : List Conversation) (current : Option String)
    (tid : String) (createResult : Option Conversation) :
    Option (List Conversation × Option String) :=
  let remaining := convs.filter (fun c => c.threadId != tid)
  let current1 := if current = some tid then none else current
  if remaining.length = 0 then
    match createResult with
    | none => none
    | some c => some (c :: remaining, some c.threadId)
  else
    match remaining with
    | r0 :: _ => some (remaining, if current1 = none then some r0.threadId else current1)
    | [] => some (remaining, current1)

/-- Modelled from the spec: the backend Document of section 3 — the reducer
source backend/src/shared/state.py is not among the repository files given
here, so the document model follows the spec's words: id, content, and a
string-keyed metadata mapping. -/
structure Document where
  id : String
  content : String
  metadata : List (String × String)
  deriving DecidableEq, Repr

/-- Modelled from the spec: reducer input of section 4.1 — the sentinel
clear command, or a sequence of documents (already normalized; raw shapes
are normalized by `normalizeDoc` below before entering the merge). -/
inductive DocsInput where
  | delete
  | docs (ds : List Document)
  deriving DecidableEq, Repr

/-- The ids of a collection, in order. -/
def docIds (l : List Document) : List String := l.map Document.id

/-- Modelled from the spec: one normalized document entering the collection
(section 4.1) — appended at the end when its id is new, skipped when the id
already exists (first-write-wins). -/
def addIfNew (acc : List Document) (d : Document) : List Document :=
  if d.id ∈ docIds acc then acc else acc ++ [d]

/-- Modelled from the spec: the reduce_docs reducer of section 4.1 and the
README (State Management section) — the clear sentinel resets the
collection to empty; a document sequence is appended in order, skipping any
document whose id already exists in the current collection. -/
def reduce_docs (current : List Document) : DocsInput → List Document
  | DocsInput.delete => []
  | DocsInput.docs ds => ds.foldl addIfNew current

/-- Modelled from the spec: a synthetic id for an input lacking one. -/
def syntheticId (n : Nat) : String := "synthetic-" ++ toString n

/-- Modelled from the spec: a raw reducer input of section 4.1 — a bare
string, or a partially-filled record possibly lacking an id. -/
inductive RawDocInput where
  | text (s : String)
  | record (id : Option String) (content : String) (metadata : List (String × String))
  deriving DecidableEq, Repr

/-- Modelled from the spec: normalization of one raw input into a full
Document (section 4.1): a string becomes a document with empty metadata and
a synthetic id; a record lacking an id receives a synthetic one. The Nat is
the fresh-id counter standing for the id generator. -/
def normalizeDoc (fresh : Nat) : RawDocInput → Document × Nat
  | RawDocInput.text s => ({ id := syntheticId fresh, content := s, metadata := [] }, fresh + 1)
  | RawDocInput.record none c md => ({ id := syntheticId fresh, content := c, metadata := md }, fresh + 1)
  | RawDocInput.record (some i) c md => ({ id := i, content := c, metadata := md }, fresh)

end AIDoc

namespace AIDoc

/-- Helper: setTrailing on a list ending in an assistant entry rewrites just
that entry. -/
theorem setTrailing_concat (pre : List DisplayMessage) (m : DisplayMessage)
    (f : DisplayMessage → DisplayMessage) (h : m.role = Role.assistant) :
    setTrailing (pre ++ [m]) f = pre ++ [f m] := by
  simp [setTrailing, List.getLast?_concat, List.dropLast_concat, h]

/-- Helper: an answer update keeps the display list ending in an assistant
entry, rewriting at most that trailing entry. -/
theorem applyAnswer_trailing_shape (st : ClientState) (x : Option (List BackendMessage))
    (pre : List DisplayMessage) (m : DisplayMessage)
    (hm : st.messages = pre ++ [m]) (hr : m.role = Role.assistant) :
    ∃ m', (applyAnswer st x).messages = pre ++ [m'] ∧ m'.role = Role.assistant := by
  unfold applyAnswer
  cases answerUpdate x with
  | none => exact ⟨m, hm, hr⟩
  | some s =>
    exact ⟨{ m with content := s, sources := some st.lastRetrievedDocs },
      by simp [hm, setTrailing_concat pre m _ hr], hr⟩

/-- Helper: every event handler either keeps the display list or rewrites
only its trailing assistant entry, preserving its role. -/
theorem processEvent_trailing_shape (st : ClientState) (e : SSEEvent)
    (pre : List DisplayMessage) (m : DisplayMessage)
    (hm : st.messages = pre ++ [m]) (hr : m.role = Role.assistant) :
    ∃ m', (processEvent st e).messages = pre ++ [m'] ∧ m'.role = Role.assistant := by
  cases e with
  | partialMsgs data =>
    cases hpu : partialUpdate data with
    | none => exact ⟨m, by simp [processEvent, onPartialMsgs, hpu, hm], hr⟩
    | some s =>
      exact ⟨{ m with content := s, sources := some st.lastRetrievedDocs },
        by simp [processEvent, onPartialMsgs, hpu, hm, setTrailing_concat pre m _ hr], hr⟩
  | updatesEvt u =>
    cases u with
    | none => exact ⟨m, hm, hr⟩
    | some upd =>
      have h1 : (match upd.retrieveDocuments with
          | some docs => ({ st with lastRetrievedDocs := docs } : ClientState)
          | none => st).messages = pre ++ [m] := by
        cases upd.retrieveDocuments <;> simpa using hm
      obtain ⟨m1, hm1, hr1⟩ := applyAnswer_trailing_shape _ upd.directAnswer pre m h1 hr
      obtain ⟨m2, hm2, hr2⟩ := applyAnswer_trailing_shape _ upd.generateResponse pre m1 hm1 hr1
      exact ⟨m2, hm2, hr2⟩
  | errorEvt => exact ⟨m, hm, hr⟩
  | otherEvt => exact ⟨m, hm, hr⟩

/-- Helper: the shape is preserved along any event sequence. -/
theorem processEvents_trailing_shape (es : List SSEEvent) :
    ∀ (st : ClientState) (pre : List DisplayMessage) (m : DisplayMessage),
      st.messages = pre ++ [m] → m.role = Role.assistant →
      ∃ m', (processEvents st es).messages = pre ++ [m'] ∧ m'.role = Role.assistant := by
  induction es with
  | nil => exact fun st pre m hm hr => ⟨m, hm, hr⟩
  | cons e es ih =>
    intro st pre m hm hr
    obtain ⟨m1, hm1, hr1⟩ := processEvent_trailing_shape st e pre m hm hr
    exact ih (processEvent st e) pre m1 hm1 hr1

/-- C2: after a submission appends the user entry and the in-flight
assistant placeholder, reconciling any number and interleaving of events
leaves exactly one assistant entry for the turn: the display list is the
previous one, the user entry, and a single trailing assistant entry; no
event appends a further entry. -/
theorem c2_one_assistant_entry (prev : ClientState) (input : String) (st0 : ClientState)
    (h0 : handleSubmitInit prev input true false = some st0) (es : List SSEEvent) :
    ∃ a, (processEvents st0 es).messages =
        prev.messages ++ [{ role := Role.user, content := jsTrim input, sources := none }, a]
      ∧ a.role = Role.assistant := by
  unfold handleSubmitInit at h0
  split at h0
  · exact absurd h0 (by simp)
  · have hmsg : st0.messages =
        (prev.messages ++ [{ role := Role.user, content := jsTrim input, sources := none }]) ++
          [{ role := Role.assistant, content := "", sources := none }] := by
      injection h0 with h0
      rw [← h0]
      simp
    obtain ⟨a, ha, hra⟩ := processEvents_trailing_shape es st0 _ _ hmsg rfl
    exact ⟨a, by simpa using ha, hra⟩

/-- C2 witness: the theorem applied at a concrete submission and a concrete
event sequence. -/
theorem c2_witness :
    ∃ a, (processEvents
          { messages :=
              [{ role := Role.user, content := jsTrim "hi", sources := none },
               { role := Role.assistant, content := "", sources := none }],
            lastRetrievedDocs := [] }
          [SSEEvent.errorEvt]).messages =
        ([] : List DisplayMessage) ++
          [{ role := Role.user, content := jsTrim "hi", sources := none }, a]
      ∧ a.role = Role.assistant :=
  c2_one_assistant_entry { messages := [], lastRetrievedDocs := [] } "hi"
    { messages :=
        [{ role := Role.user, content := jsTrim "hi", sources := none },
         { role := Role.assistant, content := "", sources := none }],
      lastRetrievedDocs := [] }
    (by decide) [SSEEvent.errorEvt]

/-- C6: submitting a query that is nonempty after trimming while a thread
exists and no turn is loading extends the display list with exactly the user
entry holding the trimmed text and a trailing assistant entry with empty
content and no sources, and resets the last-retrieved buffer, before any
stream event is processed. -/
theorem c6_submit_appends_two_entries (st : ClientState) (input : String)
    (h : jsTrim input ≠ "") :
    handleSubmitInit st input true false =
      some
        { messages :=
            st.messages ++
              [{ role := Role.user, content := jsTrim input, sources := none },
               { role := Role.assistant, content := "", sources := none }],
          lastRetrievedDocs := [] } := by
  simp [handleSubmitInit, h]

/-- C6 witness: the theorem applied at a concrete input. -/
theorem c6_witness :
    handleSubmitInit { messages := [], lastRetrievedDocs := [] } "hello" true false =
      some
        { messages :=
            [] ++
              [{ role := Role.user, content := jsTrim "hello", sources := none },
               { role := Role.assistant, content := "", sources := none }],
          lastRetrievedDocs := [] } :=
  c6_submit_appends_two_entries { messages := [], lastRetrievedDocs := [] } "hello"
    (by decide)

/-- C3 counterexample: the claim requires the partial content to be a
NON-EMPTY string for an overwrite, and says the display list is unchanged
otherwise; but on a messages/partial event whose last message is an ai
message with empty string content the handler does overwrite the trailing
entry (its content becomes empty and the buffered document is attached as
its sources), so the display list changes. -/
theorem c3_counterexample :
    (processEvent
        { messages :=
            [{ role := Role.user, content := "q", sources := none },
             { role := Role.assistant, content := "draft answer", sources := none }],
          lastRetrievedDocs := [{ id := "doc-1", content := "alpha" }] }
        (SSEEvent.partialMsgs
          (some [{ type := MsgType.ai, content := MsgContent.str "" }]))).messages
      ≠
      [{ role := Role.user, content := "q", sources := none },
       { role := Role.assistant, content := "draft answer", sources := none }] := by
  decide

/-- C3 as amended: on a messages/partial event the trailing in-flight
assistant entry is overwritten with the last message content, with the
buffer attached as sources, exactly when the last element of the array is an
ai message whose content is a string not starting with a left brace, where
an absent (null or undefined) content counts as the empty string and the
string may be empty; for any other last element the display list is
unchanged. -/
theorem c3_amended_partial_condition (st : ClientState) (pre : List DisplayMessage)
    (m : DisplayMessage) (hm : st.messages = pre ++ [m]) (hr : m.role = Role.assistant)
    (msgs : List BackendMessage) :
    (processEvent st (SSEEvent.partialMsgs (some msgs))).messages =
      match specPartialContent msgs with
      | some s => pre ++ [{ m with content := s, sources := some st.lastRetrievedDocs }]
      | none => pre ++ [m] := by
  have hpc : partialUpdate (some msgs) = specPartialContent msgs := by
    cases hg : msgs.getLast? with
    | none => simp [partialUpdate, specPartialContent, hg]
    | some lastMsg =>
      by_cases ht : lastMsg.type = MsgType.ai
      · cases hc : lastMsg.content with
        | missing =>
          simp only [partialUpdate, specPartialContent, contentString, hg, ht, hc, if_true]
          decide
        | str s => simp [partialUpdate, specPartialContent, contentString, hg, ht, hc]
        | otherVal => simp [partialUpdate, specPartialContent, contentString, hg, ht, hc]
      · simp [partialUpdate, specPartialContent, hg, ht]
  cases hsp : specPartialContent msgs with
  | none => simp [processEvent, onPartialMsgs, hpc, hsp, hm]
  | some s => simp [processEvent, onPartialMsgs, hpc, hsp, hm, setTrailing_concat pre m _ hr]

/-- C3 witness: the amended theorem applied at a concrete state and event. -/
theorem c3_witness :
    (processEvent
        { messages :=
            [{ role := Role.user, content := "q", sources := none },
             { role := Role.assistant, content := "", sources := none }],
          lastRetrievedDocs := [] }
        (SSEEvent.partialMsgs
          (some [{ type := MsgType.ai, content := MsgContent.str "Hello" }]))).messages =
      match specPartialContent [{ type := MsgType.ai, content := MsgContent.str "Hello" }] with
      | some s =>
        [{ role := Role.user, content := "q", sources := none }] ++
          [{ role := Role.assistant, content := s, sources := some ([] : List PDFDocument) }]
      | none =>
        [{ role := Role.user, content := "q", sources := none }] ++
          [{ role := Role.assistant, content := "", sources := none }] :=
  c3_amended_partial_condition
    { messages :=
        [{ role := Role.user, content := "q", sources := none },
         { role := Role.assistant, content := "", sources := none }],
      lastRetrievedDocs := [] }
    [{ role := Role.user, content := "q", sources := none }]
    { role := Role.assistant, content := "", sources := none }
    rfl rfl
    [{ type := MsgType.ai, content := MsgContent.str "Hello" }]

/-- C4 counterexample: the claim says an error event overwrites the
trailing entry content with the fixed failure string; but the error branch
of the stream loop only logs, so the state is unchanged and the trailing
content stays what it was, which differs from the failure string. -/
theorem c4_counterexample :
    processEvent
        { messages :=
            [{ role := Role.user, content := "q", sources := none },
             { role := Role.assistant, content := "draft answer", sources := none }],
          lastRetrievedDocs := [] }
        SSEEvent.errorEvt
      =
      { messages :=
          [{ role := Role.user, content := "q", sources := none },
           { role := Role.assistant, content := "draft answer", sources := none }],
        lastRetrievedDocs := [] }
    ∧ "draft answer" ≠ errorText := by
  constructor
  · rfl
  · decide

/-- C4 as amended: an error event in the stream leaves the display state
entirely unchanged (it is only logged); the fixed user-facing failure string
is written into the trailing in-flight assistant entry only by the catch
handler, when the request or stream itself fails, which replaces that
entry's content, attaches no sources (the sources field is kept as it was),
and leaves all earlier messages unchanged. -/
theorem c4_amended_error_handling (st : ClientState) (pre : List DisplayMessage)
    (m : DisplayMessage) (hm : st.messages = pre ++ [m]) (hr : m.role = Role.assistant) :
    processEvent st SSEEvent.errorEvt = st ∧
    (handleStreamFailure st).messages = pre ++ [{ m with content := errorText }] := by
  refine ⟨rfl, ?_⟩
  unfold handleStreamFailure
  simp [hm, setTrailing_concat pre m _ hr]

/-- C4 witness: the amended theorem applied at a concrete state. -/
theorem c4_witness :
    processEvent
        { messages :=
            [{ role := Role.user, content := "q", sources := none },
             { role := Role.assistant, content := "so far", sources := none }],
          lastRetrievedDocs := [] }
        SSEEvent.errorEvt
      =
      { messages :=
          [{ role := Role.user, content := "q", sources := none },
           { role := Role.assistant, content := "so far", sources := none }],
        lastRetrievedDocs := [] }
    ∧ (handleStreamFailure
        { messages :=
            [{ role := Role.user, content := "q", sources := none },
             { role := Role.assistant, content := "so far", sources := none }],
          lastRetrievedDocs := [] }).messages =
      [{ role := Role.user, content := "q", sources := none }] ++
        [{ role := Role.assistant, content := errorText, sources := none }] :=
  c4_amended_error_handling
    { messages :=
        [{ role := Role.user, content := "q", sources := none },
         { role := Role.assistant, content := "so far", sources := none }],
      lastRetrievedDocs := [] }
    [{ role := Role.user, content := "q", sources := none }]
    { role := Role.assistant, content := "so far", sources := none }
    rfl rfl

/-- C5 counterexample: the claim says an updates event carrying
retrieveDocuments documents changes only the buffer and leaves the display
list exactly as it was; but the handler checks the stage keys of one event
independently, so an updates event carrying retrieveDocuments documents and
also a directAnswer ai message overwrites the trailing entry, changing the
display list. -/
theorem c5_counterexample :
    (processEvent
        { messages :=
            [{ role := Role.user, content := "q", sources := none },
             { role := Role.assistant, content := "", sources := none }],
          lastRetrievedDocs := [] }
        (SSEEvent.updatesEvt
          (some
            { retrieveDocuments := some [{ id := "doc-2", content := "beta" }],
              directAnswer := some [{ type := MsgType.ai, content := MsgContent.str "final" }],
              generateResponse := none }))).messages
      ≠
      [{ role := Role.user, content := "q", sources := none },
       { role := Role.assistant, content := "", sources := none }] := by
  decide

/-- C5 as amended: an updates event whose payload carries retrieveDocuments
documents and no directAnswer or generateResponse entry replaces only the
last-retrieved buffer; the whole display message list is exactly what it was
before, and the buffered documents become visible only through a later
messages/partial or final-answer update event. -/
theorem c5_amended_retrieve_buffer_only (st : ClientState) (docs : List PDFDocument) :
    processEvent st
        (SSEEvent.updatesEvt
          (some { retrieveDocuments := some docs, directAnswer := none,
                  generateResponse := none }))
      = { st with lastRetrievedDocs := docs } := by
  rfl

/-- C7: a frame whose payload does not parse as JSON, or that lacks the
data prefix, is skipped without touching the client state, and every later
frame of the stream is still processed. -/
theorem c7_bad_frame_skipped (st : ClientState) (pre post : List RawFrame) (fr : RawFrame)
    (h : fr.parsed = none ∨ jsStartsWith (jsTrim fr.text) "data: " = false) :
    processFrames st (pre ++ fr :: post) =
      processFrames (processFrames st pre) post := by
  have hskip : ∀ s : ClientState, processFrame s fr = s := by
    intro s
    unfold processFrame
    by_cases h1 : jsTrim fr.text = ""
    · rw [if_pos h1]
    · rw [if_neg h1]
      by_cases h2 : jsStartsWith (jsTrim fr.text) "data: " = false
      · rw [if_pos h2]
      · rw [if_neg h2]
        have hp : fr.parsed = none := by
          cases h with
          | inl hh => exact hh
          | inr hh => exact absurd hh h2
        rw [hp]
  unfold processFrames
  rw [List.foldl_append, List.foldl_cons, hskip]

/-- C7 witness: the theorem applied to a concrete stream with one frame
whose payload does not parse. -/
theorem c7_witness :
    processFrames { messages := [], lastRetrievedDocs := [] }
        ([] ++ { text := "data: garbage", parsed := none } :: []) =
      processFrames
        (processFrames { messages := [], lastRetrievedDocs := [] } []) [] :=
  c7_bad_frame_skipped { messages := [], lastRetrievedDocs := [] } [] []
    { text := "data: garbage", parsed := none } (Or.inl rfl)

/-- Helper: the session invariant holds in every reachable state. -/
theorem chatInv_reachable (s : ChatClient) (h : ChatReachable s) : ChatInv s := by
  induction h with
  | init => refine ⟨by decide, by decide, by decide⟩
  | @submit s hs ih =>
    obtain ⟨hlen, himp, hap⟩ := ih
    by_cases hl : s.isLoading = true
    · simpa [submitStep, hl] using ⟨hlen, himp, hap⟩
    · have hl' : s.isLoading = false := by
        cases hb : s.isLoading
        · rfl
        · exact absurd hb hl
      obtain ⟨hfl, href⟩ := himp hl'
      refine ⟨?_, ?_, ?_⟩
      · simp [submitStep, hl, href, hfl]
      · intro hcon
        simp [submitStep, hl] at hcon
      · simp [submitStep, hl, href, hap]
  | @settle s c hs ih =>
    obtain ⟨hlen, himp, hap⟩ := ih
    by_cases h1 : c ∈ s.inFlight
    · have hsing : s.inFlight = [c] := by
        cases hfi : s.inFlight with
        | nil => rw [hfi] at h1; cases h1
        | cons a l =>
          cases l with
          | nil =>
            rw [hfi] at h1
            have : c = a := by simpa using h1
            rw [this]
          | cons b l2 =>
            rw [hfi] at hlen
            simp at hlen
      refine ⟨?_, ?_, ?_⟩
      · simp [finallyStep, h1, hsing]
      · intro _
        constructor
        · simp [finallyStep, h1, hsing]
        · simp [finallyStep, h1]
      · simp [finallyStep, h1, hap]
    · have h2 : c ∉ s.abortedPending := by simp [hap]
      simpa [finallyStep, h1, h2] using ⟨hlen, himp, hap⟩

/-- C8: in every reachable session state there is at most one request in
flight, and a submission made while a request is in flight is rejected
outright by the isLoading guard, leaving the state unchanged; so two turns
are never simultaneously in flight. -/
theorem c8_single_in_flight (s : ChatClient) (h : ChatReachable s) :
    s.inFlight.length ≤ 1 ∧ (s.inFlight ≠ [] → submitStep s = s) := by
  obtain ⟨hlen, himp, hap⟩ := chatInv_reachable s h
  refine ⟨hlen, fun hne => ?_⟩
  have hl : s.isLoading = true := by
    cases hb : s.isLoading
    · exact absurd (himp hb).1 hne
    · rfl
  simp [submitStep, hl]

/-- C8 witness: the theorem applied to the state reached by one
submission. -/
theorem c8_witness :
    (submitStep initChat).inFlight.length ≤ 1 ∧
      ((submitStep initChat).inFlight ≠ [] →
        submitStep (submitStep initChat) = submitStep initChat) :=
  c8_single_in_flight (submitStep initChat) (ChatReachable.submit ChatReachable.init)

/-- Helper: the ingest validation forwards nothing but the submitted file
list itself. -/
theorem ingestValidate_forward_eq (threadId : Option String) (files fs : List UploadFile)
    (h : ingestValidate threadId files = IngestDecision.forward fs) : fs = files := by
  cases threadId with
  | none => simp [ingestValidate] at h
  | some t =>
    simp only [ingestValidate] at h
    split_ifs at h
    all_goals simp_all

/-- C9: the ingest upload handler reaches the forwarding loop, with exactly
the submitted files, precisely when a threadId is present and nonblank,
between one and five files are supplied, and every file is a PDF of at most
10485760 bytes; when any of these preconditions fails it instead answers
with a 400 error and forwards nothing. -/
theorem c9_ingest_validation (threadId : Option String) (files : List UploadFile) :
    (ingestValidate threadId files = IngestDecision.forward files ↔
      ingestPreconds threadId files)
    ∧ (¬ ingestPreconds threadId files →
        ∃ msg, ingestValidate threadId files = IngestDecision.reject400 msg) := by
  have main : ingestValidate threadId files = IngestDecision.forward files ↔
      ingestPreconds threadId files := by
    cases threadId with
    | none => simp [ingestValidate, ingestPreconds]
    | some t =>
      simp only [ingestValidate]
      split_ifs with h1 h2 h3 h4
      · have htr : jsTrim t = "" := by
          rcases h1 with rfl | h1
          · rfl
          · exact h1
        simp [ingestPreconds, htr]
      · have hnil : files = [] := List.length_eq_zero.mp h2
        subst hnil
        simp [ingestPreconds]
      · constructor
        · intro h
          exact absurd h (by simp)
        · rintro ⟨-, -, hle, -⟩
          exact absurd hle (by omega)
      · obtain ⟨f, hfm⟩ := List.exists_mem_of_length_pos h4
        obtain ⟨hff, hpf⟩ := List.mem_filter.mp hfm
        have hbad : ¬(f.type = "application/pdf" ∧ f.size ≤ 10485760) := by
          rintro ⟨hty, hsz⟩
          rw [hty] at hpf
          simp [ALLOWED_FILE_TYPES, MAX_FILE_SIZE] at hpf
          omega
        constructor
        · intro h
          exact absurd h (by simp)
        · rintro ⟨-, -, -, hall⟩
          exact absurd (hall f hff) hbad
      · constructor
        · intro _
          push_neg at h1
          refine ⟨⟨t, rfl, h1.2⟩, ?_, ?_, ?_⟩
          · intro hnil
            exact h2 (by rw [hnil]; rfl)
          · omega
          · intro f hf
            have hnp : (!(ALLOWED_FILE_TYPES.contains f.type) ||
                decide (f.size > MAX_FILE_SIZE)) = false := by
              cases hb : (!(ALLOWED_FILE_TYPES.contains f.type) ||
                  decide (f.size > MAX_FILE_SIZE))
              · rfl
              · exact absurd
                  (List.length_pos_of_mem (List.mem_filter.mpr ⟨hf, hb⟩))
                  h4
            obtain ⟨hc, hd⟩ := Bool.or_eq_false_iff.mp hnp
            constructor
            · have : ALLOWED_FILE_TYPES.contains f.type = true := by
                cases hb : ALLOWED_FILE_TYPES.contains f.type
                · rw [hb] at hc
                  simp at hc
                · rfl
              simpa [ALLOWED_FILE_TYPES] using this
            · have : ¬(f.size > MAX_FILE_SIZE) := of_decide_eq_false hd
              simp [MAX_FILE_SIZE] at this
              omega
        · intro _
          rfl
  refine ⟨main, fun hnot => ?_⟩
  cases hv : ingestValidate threadId files with
  | reject400 msg => exact ⟨msg, rfl⟩
  | forward fs =>
    rw [ingestValidate_forward_eq threadId files fs hv] at hv
    exact absurd (main.mp hv) hnot

/-- Helper: every conversation surviving the filter has a different thread
id. -/
theorem mem_filter_threadId (convs : List Conversation) (tid : String) :
    ∀ c ∈ convs.filter (fun x => x.threadId != tid), c.threadId ≠ tid := by
  intro c hc
  simpa using (List.mem_filter.mp hc).2

/-- C10 counterexample: deleting the only conversation, which is current,
while the backend create call fails: the part_004 variant still reports
success, yet afterwards the current thread id is none rather than the
threadId of a freshly created conversation, as the claim requires. -/
theorem c10_counterexample :
    deleteConversation4 [{ threadId := "t1", title := none }] (some "t1") "t1" none
      = ([], none) := by
  decide

/-- C10 as amended: after a successful deleteConversation the deleted
thread is gone from the list and the current id never points at it; when the
deleted thread was current, the current id becomes the first remaining
conversation's threadId, or the freshly created conversation's threadId when
none remain — where the part_005 variant fails the whole call if that
creation fails, while the part_004 variant then reports success with the
current id left as none (still not the deleted thread). -/
theorem c10_delete_reassigns_current (convs : List Conversation)
    (current : Option String) (tid : String) (cr : Option Conversation)
    (hcr : ∀ c, cr = some c → c.threadId ≠ tid) :
    (∀ res, deleteConversation5 convs current tid cr = some res →
        (∀ c ∈ res.1, c.threadId ≠ tid) ∧ res.2 ≠ some tid ∧
          (current = some tid →
            (∀ r0 rs, convs.filter (fun x => x.threadId != tid) = r0 :: rs →
              res.2 = some r0.threadId) ∧
            (∀ c, convs.filter (fun x => x.threadId != tid) = [] → cr = some c →
              res.2 = some c.threadId)))
    ∧ ((∀ c ∈ (deleteConversation4 convs current tid cr).1, c.threadId ≠ tid) ∧
        (deleteConversation4 convs current tid cr).2 ≠ some tid ∧
        (current = some tid →
          (∀ r0 rs, convs.filter (fun x => x.threadId != tid) = r0 :: rs →
            (deleteConversation4 convs current tid cr).2 = some r0.threadId) ∧
          (∀ c, convs.filter (fun x => x.threadId != tid) = [] → cr = some c →
            (deleteConversation4 convs current tid cr).2 = some c.threadId) ∧
          (convs.filter (fun x => x.threadId != tid) = [] → cr = none →
            (deleteConversation4 convs current tid cr).2 = none))) := by
  have hmem := mem_filter_threadId convs tid
  constructor
  · intro res hres
    cases hrem : convs.filter (fun x => x.threadId != tid) with
    | nil =>
      cases cr with
      | none => simp [deleteConversation5, hrem] at hres
      | some c0 =>
        have hcid : c0.threadId ≠ tid := hcr c0 rfl
        simp [deleteConversation5, hrem] at hres
        refine ⟨?_, ?_, ?_⟩
        · intro x hx
          rw [← hres] at hx
          have hxc : x = c0 := by simpa using hx
          rw [hxc]
          exact hcid
        · rw [← hres]
          intro he
          injection he with he
          exact hcid he
        · intro _
          refine ⟨?_, ?_⟩
          · intro r0 rs h
            simp at h
          · intro c h1 h2
            injection h2 with h2
            rw [← hres, ← h2]
    | cons r0 rs =>
      have hr0 : r0.threadId ≠ tid :=
        hmem r0 (by rw [hrem]; exact List.mem_cons_self r0 rs)
      by_cases hcur : current = some tid
      · simp [deleteConversation5, hrem, hcur] at hres
        refine ⟨?_, ?_, ?_⟩
        · intro x hx
          rw [← hres] at hx
          exact hmem x (by rw [hrem]; simpa using hx)
        · rw [← hres]
          intro he
          injection he with he
          exact hr0 he
        · intro _
          refine ⟨?_, ?_⟩
          · intro r0n rsn h
            injection h with h1 h2
            rw [← hres, h1]
          · intro c h1 h2
            simp at h1
      · by_cases hnone : current = none
        · simp [deleteConversation5, hrem, hcur, hnone] at hres
          refine ⟨?_, ?_, ?_⟩
          · intro x hx
            rw [← hres] at hx
            exact hmem x (by rw [hrem]; simpa using hx)
          · rw [← hres]
            intro he
            injection he with he
            exact hr0 he
          · intro hc
            exact absurd hc hcur
        · simp [deleteConversation5, hrem, hcur, hnone] at hres
          refine ⟨?_, ?_, ?_⟩
          · intro x hx
            rw [← hres] at hx
            exact hmem x (by rw [hrem]; simpa using hx)
          · rw [← hres]
            intro he
            exact hcur he
          · intro hc
            exact absurd hc hcur
  · by_cases hcur : current = some tid
    · cases hrem : convs.filter (fun x => x.threadId != tid) with
      | nil =>
        cases cr with
        | none =>
          have h4 : deleteConversation4 convs current tid none =
              (convs.filter (fun x => x.threadId != tid), none) := by
            simp [deleteConversation4, hrem, hcur]
          rw [h4, hrem]
          refine ⟨?_, ?_, ?_⟩
          · intro x hx
            simp at hx
          · simp
          · intro _
            refine ⟨?_, ?_, ?_⟩
            · intro r0 rs h
              simp at h
            · intro c h1 h2
              simp at h2
            · intro _ _
              rfl
        | some c0 =>
          have hcid : c0.threadId ≠ tid := hcr c0 rfl
          have h4 : deleteConversation4 convs current tid (some c0) =
              (c0 :: convs.filter (fun x => x.threadId != tid), some c0.threadId) := by
            simp [deleteConversation4, hrem, hcur]
          rw [h4, hrem]
          refine ⟨?_, ?_, ?_⟩
          · intro x hx
            have hxc : x = c0 := by simpa using hx
            rw [hxc]
            exact hcid
          · intro he
            injection he with he
            exact hcid he
          · intro _
            refine ⟨?_, ?_, ?_⟩
            · intro r0 rs h
              simp at h
            · intro c h1 h2
              injection h2 with h2
              rw [← h2]
            · intro _ h2
              simp at h2
      | cons r0 rs =>
        have hr0 : r0.threadId ≠ tid :=
          hmem r0 (by rw [hrem]; exact List.mem_cons_self r0 rs)
        have h4 : deleteConversation4 convs current tid cr =
            (convs.filter (fun x => x.threadId != tid), some r0.threadId) := by
          cases cr <;> simp [deleteConversation4, hrem, hcur]
        rw [h4]
        refine ⟨?_, ?_, ?_⟩
        · intro x hx
          exact hmem x hx
        · intro he
          injection he with he
          exact hr0 he
        · intro _
          refine ⟨?_, ?_, ?_⟩
          · intro r0n rsn h
            injection h with h1 h2
            rw [h1]
          · intro c h1 h2
            simp at h1
          · intro h1 _
            simp at h1
    · have h4 : deleteConversation4 convs current tid cr =
          (convs.filter (fun x => x.threadId != tid), current) := by
        simp [deleteConversation4, hcur]
      rw [h4]
      refine ⟨?_, ?_, ?_⟩
      · intro x hx
        exact hmem x hx
      · intro he
        exact hcur he
      · intro hcon
        exact absurd hcon hcur

/-- C10 witness: the amended theorem applied to a concrete deletion of the
current, only conversation with a succeeding create call. -/
theorem c10_witness :
    (∀ res, deleteConversation5 [(⟨"t1", none⟩ : Conversation)] (some "t1") "t1"
          (some (⟨"t2", none⟩ : Conversation)) = some res →
        (∀ c ∈ res.1, c.threadId ≠ "t1") ∧ res.2 ≠ some "t1" ∧
          (some "t1" = some "t1" →
            (∀ r0 rs, [(⟨"t1", none⟩ : Conversation)].filter
                  (fun x => x.threadId != "t1") = r0 :: rs →
              res.2 = some r0.threadId) ∧
            (∀ c, [(⟨"t1", none⟩ : Conversation)].filter
                  (fun x => x.threadId != "t1") = [] →
              some (⟨"t2", none⟩ : Conversation) = some c →
              res.2 = some c.threadId)))
    ∧ ((∀ c ∈ (deleteConversation4 [(⟨"t1", none⟩ : Conversation)] (some "t1") "t1"
            (some (⟨"t2", none⟩ : Conversation))).1, c.threadId ≠ "t1") ∧
        (deleteConversation4 [(⟨"t1", none⟩ : Conversation)] (some "t1") "t1"
            (some (⟨"t2", none⟩ : Conversation))).2 ≠ some "t1" ∧
        (some "t1" = some "t1" →
          (∀ r0 rs, [(⟨"t1", none⟩ : Conversation)].filter
                (fun x => x.threadId != "t1") = r0 :: rs →
            (deleteConversation4 [(⟨"t1", none⟩ : Conversation)] (some "t1") "t1"
                (some (⟨"t2", none⟩ : Conversation))).2 = some r0.threadId) ∧
          (∀ c, [(⟨"t1", none⟩ : Conversation)].filter
                (fun x => x.threadId != "t1") = [] →
            some (⟨"t2", none⟩ : Conversation) = some c →
            (deleteConversation4 [(⟨"t1", none⟩ : Conversation)] (some "t1") "t1"
                (some (⟨"t2", none⟩ : Conversation))).2 = some c.threadId) ∧
          ([(⟨"t1", none⟩ : Conversation)].filter (fun x => x.threadId != "t1") = [] →
            some (⟨"t2", none⟩ : Conversation) = none →
            (deleteConversation4 [(⟨"t1", none⟩ : Conversation)] (some "t1") "t1"
                (some (⟨"t2", none⟩ : Conversation))).2 = none))) :=
  c10_delete_reassigns_current [(⟨"t1", none⟩ : Conversation)] (some "t1") "t1"
    (some (⟨"t2", none⟩ : Conversation))
    (by
      intro c h
      injection h with h
      rw [← h]
      decide)

/-- Helper: ids are computed elementwise. -/
theorem docIds_cons (d : Document) (l : List Document) :
    docIds (d :: l) = d.id :: docIds l := rfl

/-- Helper: ids of an appended collection. -/
theorem docIds_append (l1 l2 : List Document) :
    docIds (l1 ++ l2) = docIds l1 ++ docIds l2 := by
  simp [docIds]

/-- Helper: the ids after one merge step. -/
theorem docIds_addIfNew (acc : List Document) (d : Document) :
    docIds (addIfNew acc d) =
      if d.id ∈ docIds acc then docIds acc else docIds acc ++ [d.id] := by
  unfold addIfNew
  split
  · rfl
  · simp [docIds]

/-- Helper: an id is in the merged collection exactly when it came from the
accumulator or from the incoming sequence. -/
theorem mem_docIds_foldl (l : List Document) :
    ∀ (acc : List Document) (i : String),
      i ∈ docIds (l.foldl addIfNew acc) ↔ i ∈ docIds acc ∨ i ∈ docIds l := by
  induction l with
  | nil =>
    intro acc i
    simp [docIds]
  | cons d l ih =>
    intro acc i
    rw [List.foldl_cons, ih, docIds_addIfNew, docIds_cons]
    by_cases h : d.id ∈ docIds acc
    · rw [if_pos h]
      constructor
      · rintro (h1 | h2)
        · exact Or.inl h1
        · exact Or.inr (List.mem_cons_of_mem _ h2)
      · rintro (h1 | h2)
        · exact Or.inl h1
        · rcases List.mem_cons.mp h2 with rfl | h3
          · exact Or.inl h
          · exact Or.inr h3
    · rw [if_neg h]
      simp only [List.mem_append, List.mem_singleton, List.mem_cons]
      tauto

/-- Helper: merging never duplicates an id. -/
theorem nodup_docIds_foldl (l : List Document) :
    ∀ acc : List Document, (docIds acc).Nodup → (docIds (l.foldl addIfNew acc)).Nodup := by
  induction l with
  | nil =>
    intro acc h
    simpa using h
  | cons d l ih =>
    intro acc h
    rw [List.foldl_cons]
    apply ih
    rw [docIds_addIfNew]
    by_cases hd : d.id ∈ docIds acc
    · rw [if_pos hd]
      exact h
    · rw [if_neg hd]
      refine List.nodup_append.mpr ⟨h, List.nodup_singleton _, ?_⟩
      intro x hx hxd
      exact hd (List.mem_singleton.mp hxd ▸ hx)

/-- Helper: every document in the merged collection either was already in
the accumulator, or is the first element of the incoming sequence bearing
its id, with an id new to the accumulator. -/
theorem foldl_addIfNew_first_wins (l : List Document) :
    ∀ (acc : List Document) (d : Document), d ∈ l.foldl addIfNew acc →
      d ∈ acc ∨ (l.find? (fun x => x.id == d.id) = some d ∧ d.id ∉ docIds acc) := by
  induction l with
  | nil =>
    intro acc d h
    exact Or.inl h
  | cons x l ih =>
    intro acc d h
    rw [List.foldl_cons] at h
    rcases ih (addIfNew acc x) d h with h1 | ⟨hfind, hnot⟩
    · unfold addIfNew at h1
      by_cases hx : x.id ∈ docIds acc
      · rw [if_pos hx] at h1
        exact Or.inl h1
      · rw [if_neg hx] at h1
        rcases List.mem_append.mp h1 with h2 | h2
        · exact Or.inl h2
        · have hdx : d = x := List.mem_singleton.mp h2
          subst hdx
          right
          refine ⟨List.find?_cons_of_pos _ (by simp), hx⟩
    · have hxd : x.id ≠ d.id := by
        intro he
        apply hnot
        rw [docIds_addIfNew]
        by_cases hx : x.id ∈ docIds acc
        · rw [if_pos hx, ← he]
          exact hx
        · rw [if_neg hx]
          exact List.mem_append.mpr (Or.inr (by rw [← he]; exact List.mem_singleton_self _))
      have hda : d.id ∉ docIds acc := by
        intro hm
        apply hnot
        rw [docIds_addIfNew]
        by_cases hx : x.id ∈ docIds acc
        · rw [if_pos hx]
          exact hm
        · rw [if_neg hx]
          exact List.mem_append.mpr (Or.inl hm)
      right
      refine ⟨?_, hda⟩
      rw [List.find?_cons_of_neg _ (by simp [hxd])]
      exact hfind

/-- Helper: the merged collection is a subsequence of accumulator then
incoming, so insertion order is preserved. -/
theorem foldl_addIfNew_sublist (l : List Document) :
    ∀ acc : List Document, List.Sublist (l.foldl addIfNew acc) (acc ++ l) := by
  induction l with
  | nil =>
    intro acc
    simp
  | cons x l ih =>
    intro acc
    rw [List.foldl_cons]
    refine (ih (addIfNew acc x)).trans ?_
    unfold addIfNew
    by_cases hx : x.id ∈ docIds acc
    · rw [if_pos hx]
      exact List.Sublist.append_left (List.sublist_cons_self x l) acc
    · rw [if_neg hx]
      rw [List.append_assoc, List.singleton_append]

/-- C1: reducing two document sequences in turn into the empty collection
yields a collection in which every id of the input appears exactly once, the
entry stored for each id is the first element of D1 then D2 bearing that id
(so a later element with an existing id is skipped and never overwrites),
and the surviving entries keep their order of first appearance. -/
theorem c1_reduce_first_write_wins (D1 D2 : List Document) :
    (docIds (reduce_docs (reduce_docs [] (DocsInput.docs D1)) (DocsInput.docs D2))).Nodup
    ∧ (∀ i, i ∈ docIds (reduce_docs (reduce_docs [] (DocsInput.docs D1)) (DocsInput.docs D2))
        ↔ i ∈ docIds (D1 ++ D2))
    ∧ (∀ d ∈ reduce_docs (reduce_docs [] (DocsInput.docs D1)) (DocsInput.docs D2),
        (D1 ++ D2).find? (fun x => x.id == d.id) = some d)
    ∧ List.Sublist (reduce_docs (reduce_docs [] (DocsInput.docs D1)) (DocsInput.docs D2)) (D1 ++ D2) := by
  have hsplit : reduce_docs (reduce_docs [] (DocsInput.docs D1)) (DocsInput.docs D2)
      = (D1 ++ D2).foldl addIfNew [] := by
    simp [reduce_docs, List.foldl_append]
  rw [hsplit]
  refine ⟨nodup_docIds_foldl (D1 ++ D2) [] (by simp [docIds]), ?_, ?_, ?_⟩
  · intro i
    rw [mem_docIds_foldl]
    simp [docIds]
  · intro d hd
    rcases foldl_addIfNew_first_wins (D1 ++ D2) [] d hd with h1 | ⟨hf, -⟩
    · cases h1
    · exact hf
  · simpa using foldl_addIfNew_sublist (D1 ++ D2) []

end AIDoc
